import Mathlib

/-
Verification of the diff engine of DiffLens for VSCode (src/diffService.ts).

The TypeScript functions `parseFileExtensionsFilter`, `formatDiffAsMarkdown`,
`generateNativeGitDiff` and `generateUnifiedDiff` are embedded below as
executable Lean definitions.  JavaScript string primitives (startsWith,
endsWith, includes, trim, split, replace-first) are modelled over `String.data`
(a `List Char` in this Lean version).  The line-diff / hunk-assembly engine
(`jsdiff.structuredPatch`, required from the npm `diff` package, whose code is
not part of this repository) is modelled from the spec, sections 4.1 and 4.2.
-/

namespace DiffLens

/-- Model of the JavaScript whitespace class used by `trim` and the
`[,;\s]+` splitter, restricted to the ASCII whitespace characters that can
occur in the inputs considered here. -/
def isJsWhitespace (c : Char) : Bool :=
  c = ' ' || c = '\t' || c = '\n' || c = '\r'

/-- Model of JavaScript `String.prototype.trim` on a character list. -/
def jsTrimList (l : List Char) : List Char :=
  ((l.dropWhile isJsWhitespace).reverse.dropWhile isJsWhitespace).reverse

/-- Model of JavaScript `String.prototype.trim`. -/
def jsTrim (s : String) : String :=
  ⟨jsTrimList s.data⟩

/-- Model of JavaScript `String.prototype.startsWith`. -/
def strStartsWith (s pre : String) : Bool :=
  pre.data.isPrefixOf s.data

/-- Model of JavaScript `String.prototype.endsWith`. -/
def strEndsWith (s suf : String) : Bool :=
  suf.data.isSuffixOf s.data

/-- Contiguous-substring test on character lists. -/
def listIsInfix (sub : List Char) : List Char → Bool
  | [] => sub.isEmpty
  | c :: cs => sub.isPrefixOf (c :: cs) || listIsInfix sub cs

/-- Model of JavaScript `String.prototype.includes`. -/
def strContains (s sub : String) : Bool :=
  listIsInfix sub.data s.data

/-- Replace the first occurrence of `tgt` in the list (JavaScript
`String.prototype.replace` with a string pattern replaces only the first
occurrence). -/
def replaceFirstAux (tgt repl : List Char) : List Char → List Char
  | [] => []
  | c :: cs =>
    if tgt.isPrefixOf (c :: cs) then repl ++ (c :: cs).drop tgt.length
    else c :: replaceFirstAux tgt repl cs

/-- Model of JavaScript `s.replace(tgt, repl)` with a string pattern. -/
def jsReplaceFirst (s tgt repl : String) : String :=
  ⟨replaceFirstAux tgt.data repl.data s.data⟩

/-- Split a character list at every newline character; models JavaScript
`s.split('\n')` (which yields `[""]` on the empty string and keeps a final
empty field when the string ends with a newline). -/
def splitLinesGo : List Char → List Char → List (List Char)
  | [], cur => [cur.reverse]
  | c :: cs, cur =>
    if c = '\n' then cur.reverse :: splitLinesGo cs []
    else splitLinesGo cs (c :: cur)

/-- Model of JavaScript `s.split('\n')`. -/
def jsSplitNl (s : String) : List String :=
  (splitLinesGo s.data []).map (fun l => (⟨l⟩ : String))

/-- Split at maximal runs of comma / semicolon / whitespace characters;
models JavaScript `s.split(/[,;\s]+/)` (empty leading or trailing fields are
produced when the string starts or ends with a separator run). -/
def splitSepsGo : List Char → Bool → List Char → List (List Char)
  | [], _, cur => [cur.reverse]
  | c :: cs, prevSep, cur =>
    if c = ',' || c = ';' || isJsWhitespace c then
      if prevSep then splitSepsGo cs true []
      else cur.reverse :: splitSepsGo cs true []
    else splitSepsGo cs false (c :: cur)

/-- Model of JavaScript `s.split(/[,;\s]+/)`. -/
def jsSplitSeps (s : String) : List String :=
  (splitSepsGo s.data false []).map (fun l => (⟨l⟩ : String))

/-- Model of JavaScript `Array.prototype.join(sep)`. -/
def strIntercalate (sep : String) : List String → String
  | [] => ""
  | [s] => s
  | s :: rest => s ++ sep ++ strIntercalate sep rest

/-- Concatenation of a list of strings (models repeated `result += piece`). -/
def concatStrings : List String → String
  | [] => ""
  | s :: rest => s ++ concatStrings rest

/-- Modelled from the spec: role of a line inside a hunk (spec section 3,
`PrefixedLine`: Context, Added, Removed). -/
inductive LineRole where
  | context
  | added
  | removed
deriving DecidableEq, Repr

/-- Modelled from the spec: a text line tagged with its role (spec section 3,
`PrefixedLine`). -/
structure PrefixedLine where
  role : LineRole
  text : String
deriving DecidableEq, Repr

/-- Modelled from the spec: a hunk with 1-based start line numbers, line
counts for the old and the new side, and its role-tagged lines (spec
section 3, `Hunk`; mirrors the shape of the hunks returned by
`jsdiff.structuredPatch`, which is not part of this repository). -/
structure Hunk where
  oldStart : Nat
  oldCount : Nat
  newStart : Nat
  newCount : Nat
  lines : List PrefixedLine
deriving DecidableEq, Repr

/-- Modelled from the spec: an edit-script operation over a contiguous run of
lines (spec section 3, `DiffOp`: tagged variant over Equal, Insert, Delete). -/
inductive DiffOp where
  | equal (lines : List String)
  | insert (lines : List String)
  | delete (lines : List String)
deriving DecidableEq, Repr

/-- Whether an operation is a change (Insert or Delete) run. -/
def DiffOp.isChange : DiffOp → Bool
  | .equal _ => false
  | _ => true

/-- Modelled from the spec: `LineSequence` (spec section 3) — the content is
split on line breaks; empty content yields an empty sequence, and a trailing
line break does not produce an extra empty line. -/
def splitContentLines (s : String) : List String :=
  if s = "" then []
  else
    let parts := (splitLinesGo s.data []).map (fun l => (⟨l⟩ : String))
    if parts.getLast? = some "" then parts.dropLast else parts

/-- The longer of two candidate common subsequences, preferring the first on
ties (deterministic tie-breaking, spec section 4.1). -/
def pickLonger (a b : List String) : List String :=
  if b.length > a.length then b else a

/-- Longest common subsequence of two line sequences, with explicit fuel so
that the definition is structurally recursive (the fuel is always sufficient
when it is at least the sum of the lengths). -/
def lcsAux : Nat → List String → List String → List String
  | 0, _, _ => []
  | _ + 1, [], _ => []
  | _ + 1, _, [] => []
  | n + 1, x :: xs, y :: ys =>
    if x = y then x :: lcsAux n xs ys
    else pickLonger (lcsAux n xs (y :: ys)) (lcsAux n (x :: xs) ys)

/-- Longest common subsequence of two line sequences. -/
def lcs (xs ys : List String) : List String :=
  lcsAux (xs.length + ys.length) xs ys

/-- Modelled from the spec: build the raw edit script from a common
subsequence — lines of the old side before the next common line are a Delete
run, lines of the new side before it are an Insert run (deletions precede
insertions, the conventional unified-diff order), spec section 4.1. -/
def buildRuns : List String → List String → List String → List DiffOp
  | [], old, new =>
    (if old = [] then [] else [DiffOp.delete old]) ++
    (if new = [] then [] else [DiffOp.insert new])
  | c :: cs, old, new =>
    let dRun := old.takeWhile (fun l => l ≠ c)
    let oldRest := (old.dropWhile (fun l => l ≠ c)).drop 1
    let iRun := new.takeWhile (fun l => l ≠ c)
    let newRest := (new.dropWhile (fun l => l ≠ c)).drop 1
    (if dRun = [] then [] else [DiffOp.delete dRun]) ++
    (if iRun = [] then [] else [DiffOp.insert iRun]) ++
    ([DiffOp.equal [c]] ++ buildRuns cs oldRest newRest)

/-- Coalesce adjacent operations of the same kind into single runs. -/
def coalesce : List DiffOp → List DiffOp
  | [] => []
  | op :: rest =>
    match op, coalesce rest with
    | .equal ls1, .equal ls2 :: tail => .equal (ls1 ++ ls2) :: tail
    | .insert ls1, .insert ls2 :: tail => .insert (ls1 ++ ls2) :: tail
    | .delete ls1, .delete ls2 :: tail => .delete (ls1 ++ ls2) :: tail
    | o, done => o :: done

/-- Modelled from the spec: the Line Differ (spec section 4.1) — an ordered
sequence of DiffOp runs; identical sequences yield no Insert or Delete run. -/
def diffLines (oldLines newLines : List String) : List DiffOp :=
  coalesce (buildRuns (lcs oldLines newLines) oldLines newLines)

/-- Last `n` elements of a list. -/
def takeLast (n : Nat) (l : List String) : List String :=
  l.drop (l.length - n)

/-- Modelled from the spec: the Hunk Assembler walk (spec section 4.2).
Arguments: context-line count `N`, remaining operations, the running 1-based
old/new line counters, the lines of the immediately preceding Equal run
(source of context-before), and the open hunk, if any, as
(oldStart, newStart, collected lines).  On a change run with no open hunk a
hunk is opened whose context-before is the last `min(N, available)` preceding
equal lines and whose start numbers are the current counters minus that
context length, clamped to minimum 1.  A following Equal run is merged into
the open hunk when its length is at most `2*N` and a further change run
follows; otherwise the hunk is closed with up to `N` trailing context lines.
At the end of input an open hunk is closed with no further context. -/
def assembleGo (N : Nat) :
    List DiffOp → Nat → Nat → List String → Option (Nat × Nat × List PrefixedLine) → List Hunk
  | [], _, _, _, none => []
  | [], oldLine, newLine, _, some (os, ns, cur) =>
    [{ oldStart := os, oldCount := oldLine - os,
       newStart := ns, newCount := newLine - ns, lines := cur }]
  | DiffOp.equal ls :: rest, oldLine, newLine, _, none =>
    assembleGo N rest (oldLine + ls.length) (newLine + ls.length) ls none
  | DiffOp.equal ls :: rest, oldLine, newLine, _, some (os, ns, cur) =>
    if ls.length ≤ 2 * N && rest.any DiffOp.isChange then
      assembleGo N rest (oldLine + ls.length) (newLine + ls.length) []
        (some (os, ns, cur ++ ls.map (fun l => ⟨LineRole.context, l⟩)))
    else
      let ctxAfter := min N ls.length
      { oldStart := os, oldCount := oldLine - os + ctxAfter,
        newStart := ns, newCount := newLine - ns + ctxAfter,
        lines := cur ++ (ls.take ctxAfter).map (fun l => ⟨LineRole.context, l⟩) } ::
      assembleGo N rest (oldLine + ls.length) (newLine + ls.length) ls none
  | DiffOp.insert ls :: rest, oldLine, newLine, prevEq, none =>
    let k := min N prevEq.length
    assembleGo N rest oldLine (newLine + ls.length) []
      (some (max 1 (oldLine - k), max 1 (newLine - k),
        (takeLast k prevEq).map (fun l => ⟨LineRole.context, l⟩) ++
          ls.map (fun l => ⟨LineRole.added, l⟩)))
  | DiffOp.insert ls :: rest, oldLine, newLine, _, some (os, ns, cur) =>
    assembleGo N rest oldLine (newLine + ls.length) []
      (some (os, ns, cur ++ ls.map (fun l => ⟨LineRole.added, l⟩)))
  | DiffOp.delete ls :: rest, oldLine, newLine, prevEq, none =>
    let k := min N prevEq.length
    assembleGo N rest (oldLine + ls.length) newLine []
      (some (max 1 (oldLine - k), max 1 (newLine - k),
        (takeLast k prevEq).map (fun l => ⟨LineRole.context, l⟩) ++
          ls.map (fun l => ⟨LineRole.removed, l⟩)))
  | DiffOp.delete ls :: rest, oldLine, newLine, _, some (os, ns, cur) =>
    assembleGo N rest (oldLine + ls.length) newLine []
      (some (os, ns, cur ++ ls.map (fun l => ⟨LineRole.removed, l⟩)))

/-- Modelled from the spec: `jsdiff.structuredPatch` (the npm `diff` package
is required by src/diffService.ts but its code is not part of this
repository) — Line Differ followed by Hunk Assembler, spec sections 4.1 and
4.2; returns the hunk list for the two contents. -/
def structuredPatch (oldContent newContent : String) (contextLines : Nat) : List Hunk :=
  assembleGo contextLines
    (diffLines (splitContentLines oldContent) (splitContentLines newContent)) 1 1 [] none

/-- Body of the `extensions.forEach` loop of `parseFileExtensionsFilter`
(src/diffService.ts, lines 27-60): a token containing `**` or `/` is pushed
as-is as a single complex pathspec; otherwise the base pattern is the token
itself when it starts with `*`, the token with `*` prepended when it starts
with `.`, and `*.` plus the token otherwise, and both the direct pattern and
the recursive `**/` pattern are pushed. -/
def expandExtension (ext : String) : List String :=
  if strContains ext "**" || strContains ext "/" then [ext]
  else
    let basePattern :=
      if strStartsWith ext "*" then ext
      else if strStartsWith ext "." then "*" ++ ext
      else "*." ++ ext
    [basePattern, "**/" ++ basePattern]

/-- Embedding of `parseFileExtensionsFilter` (src/diffService.ts, lines
12-64): empty or blank input yields no patterns; otherwise the free-form
filter string is split on commas, semicolons and whitespace and each token
contributes its expansion, in order. -/
def parseFileExtensionsFilter (fileExtensions : String) : List String :=
  if fileExtensions = "" || jsTrim fileExtensions = "" then []
  else
    let extensions := ((jsSplitSeps fileExtensions).map jsTrim).filter (fun t => t ≠ "")
    extensions.foldl (fun result ext => result ++ expandExtension ext) []

/-- Embedding of the per-pattern matching lambda inside
`generateNativeGitDiff` (src/diffService.ts, lines 180-190): a pattern
starting with `**/` matches when the path ends with the pattern minus its
`**/` and minus its first `*`; a pattern starting with `*` matches when the
path ends with the pattern minus its first `*`; any other pattern matches
when the path ends with the whole pattern. -/
def patternMatchesPath (rel pattern : String) : Bool :=
  if strStartsWith pattern "**/" then
    strEndsWith rel (jsReplaceFirst (jsReplaceFirst pattern "**/" "") "*" "")
  else if strStartsWith pattern "*" then
    strEndsWith rel (jsReplaceFirst pattern "*" "")
  else
    strEndsWith rel pattern

/-- Embedding of the `pathspecs.some(...)` test inside
`generateNativeGitDiff` (src/diffService.ts, lines 180-190). -/
def matchesPathspecs (pathspecs : List String) (rel : String) : Bool :=
  pathspecs.any (patternMatchesPath rel)

/-- The literal extension portion of a pattern, as the matching lambda
computes it in each of its three branches. -/
def literalExtensionOf (pattern : String) : String :=
  if strStartsWith pattern "**/" then
    jsReplaceFirst (jsReplaceFirst pattern "**/" "") "*" ""
  else if strStartsWith pattern "*" then
    jsReplaceFirst pattern "*" ""
  else pattern

/-- Rendering of one role-tagged hunk line to the prefixed string jsdiff
stores in `hunk.lines`: a one-character prefix (space for context, `+` for
added, `-` for removed) followed by the raw line text (spec section 4.3). -/
def renderPrefixedLine (p : PrefixedLine) : String :=
  (match p.role with
   | LineRole.context => " "
   | LineRole.added => "+"
   | LineRole.removed => "-") ++ p.text

/-- The hunk header line `@@ -<oldStart>,<oldCount> +<newStart>,<newCount> @@`
emitted before each hunk (src/diffService.ts, line 278). -/
def hunkHeaderLine (h : Hunk) : String :=
  "@@ -" ++ Nat.repr h.oldStart ++ "," ++ Nat.repr h.oldCount ++
  " +" ++ Nat.repr h.newStart ++ "," ++ Nat.repr h.newCount ++ " @@\n"

/-- Embedding of the per-hunk rendering loop of `generateUnifiedDiff`
(src/diffService.ts, lines 277-282): the hunk header followed by each hunk
line on its own line. -/
def renderHunk (h : Hunk) : String :=
  hunkHeaderLine h ++
  concatStrings (h.lines.map (fun l => renderPrefixedLine l ++ "\n"))

/-- The constant per-file header block emitted by `generateUnifiedDiff`
(src/diffService.ts, lines 273-276): `diff --git`, a placeholder `index`
line, `--- a/<oldPath>` and `+++ b/<newPath>` — the same four lines for
every file state. -/
def unifiedDiffHeader (oldPath newPath : String) : String :=
  "diff --git a/" ++ oldPath ++ " b/" ++ newPath ++ "\n" ++
  "index 0000000..0000000 100644\n" ++
  "--- a/" ++ oldPath ++ "\n" ++
  "+++ b/" ++ newPath ++ "\n"

/-- Embedding of `generateUnifiedDiff` (src/diffService.ts, lines 256-284):
header block, then every hunk; the final line returns the text when its
trimmed form is non-empty and the empty string otherwise. -/
def generateUnifiedDiff (oldPath newPath oldContent newContent : String)
    (contextLines : Nat) : String :=
  let hunks := structuredPatch oldContent newContent contextLines
  let result := unifiedDiffHeader oldPath newPath ++ concatStrings (hunks.map renderHunk)
  if jsTrim result ≠ "" then result else ""

/-- Embedding of the `Status` enum (src/types.ts). -/
inductive Status where
  | INDEX_MODIFIED
  | INDEX_ADDED
  | INDEX_DELETED
  | INDEX_RENAMED
  | INDEX_COPIED
  | MODIFIED
  | DELETED
  | UNTRACKED
  | IGNORED
  | ADDED_BY_US
  | ADDED_BY_THEM
  | DELETED_BY_US
  | DELETED_BY_THEM
  | BOTH_ADDED
  | BOTH_DELETED
  | BOTH_MODIFIED
deriving DecidableEq, Repr

/-- A changed-file descriptor as `generateNativeGitDiff` consumes it: the
path relative to the workspace (the value of
`vscode.workspace.asRelativePath(change.uri)`), the change status, and the
file contents at the two compared commits (the results of the two
`git show` calls, which the source obtains through `execAsync` and which
default to the empty string when the command fails). -/
structure ChangeModel where
  path : String
  status : Status
  oldContent : String
  newContent : String
deriving DecidableEq, Repr

/-- The status test of the exclude-deletes filter (src/diffService.ts,
line 197): a change is dropped when its status is `DELETED` or
`INDEX_DELETED`. -/
def isDeletedStatus : Status → Bool
  | Status.DELETED => true
  | Status.INDEX_DELETED => true
  | _ => false

/-- Embedding of the extension-filter step of `generateNativeGitDiff`
(src/diffService.ts, lines 174-192): applied only when the filter string is
non-empty (JavaScript truthiness of `fileExtensions`). -/
def filterByExtensions (fileExtensions : String) (changes : List ChangeModel) :
    List ChangeModel :=
  if fileExtensions ≠ "" then
    changes.filter (fun c => matchesPathspecs (parseFileExtensionsFilter fileExtensions) c.path)
  else changes

/-- Embedding of the exclude-deletes step of `generateNativeGitDiff`
(src/diffService.ts, lines 194-199). -/
def filterDeletes (excludeDeletes : Bool) (changes : List ChangeModel) :
    List ChangeModel :=
  if excludeDeletes then changes.filter (fun c => !isDeletedStatus c.status)
  else changes

/-- The `compareInfo` fragment of the no-changes error message
(src/diffService.ts, line 203). -/
def compareInfo (compareToCommit : Option String) : String :=
  match compareToCommit with
  | some c => " between commit " ++ (⟨c.data.take 8⟩ : String) ++ " and HEAD"
  | none => " in the latest commit"

/-- The `filterInfo` fragment of the no-changes error message
(src/diffService.ts, line 202). -/
def filterInfo (fileExtensions : String) : String :=
  if fileExtensions ≠ "" then " with filter \"" ++ fileExtensions ++ "\"" else ""

/-- The message of the error thrown when no changes survive filtering
(src/diffService.ts, line 204). -/
def noChangesMessage (compareToCommit : Option String) (fileExtensions : String) : String :=
  "No changes found" ++ compareInfo compareToCommit ++ filterInfo fileExtensions

/-- The outer catch of `generateNativeGitDiff` rethrows every error as
`Failed to generate git diff: ${error}` (src/diffService.ts, line 250);
JavaScript stringifies an `Error` as `Error: ` plus its message. -/
def wrapFailure (e : String) : String :=
  "Failed to generate git diff: Error: " ++ e

/-- The per-file diff of one change, as the loop body of
`generateNativeGitDiff` computes it (src/diffService.ts, line 236): old and
new path are both the relative path. -/
def perFileDiff (contextLines : Nat) (c : ChangeModel) : String :=
  generateUnifiedDiff c.path c.path c.oldContent c.newContent contextLines

/-- One iteration of the per-file loop of `generateNativeGitDiff`
(src/diffService.ts, lines 209-240): push the file's diff when it is
non-empty (`if (diff) diffs.push(diff)`). -/
def collectStep (contextLines : Nat) (diffs : List String) (c : ChangeModel) : List String :=
  let d := perFileDiff contextLines c
  if d ≠ "" then diffs ++ [d] else diffs

/-- Embedding of the per-file loop of `generateNativeGitDiff`
(src/diffService.ts, lines 208-240): generate a unified diff per surviving
change, in order, keeping only the non-empty results. -/
def collectDiffs (contextLines : Nat) (filtered : List ChangeModel) : List String :=
  filtered.foldl (collectStep contextLines) []

/-- Embedding of `generateNativeGitDiff` (src/diffService.ts, lines
131-252), from the point where the change list between the two commits is
known (the preceding workspace/repository/log lookups are host I/O and the
per-file contents are supplied in each `ChangeModel`): filter by extensions,
then drop deletes when requested, fail when nothing remains, otherwise join
the non-empty per-file diffs with a single newline. -/
def generateNativeGitDiff (changes : List ChangeModel)
    (compareToCommit : Option String) (contextLines : Nat)
    (excludeDeletes : Bool) (fileExtensions : String) : Except String String :=
  let filteredChanges := filterDeletes excludeDeletes (filterByExtensions fileExtensions changes)
  if filteredChanges.length = 0 then
    Except.error (wrapFailure (noChangesMessage compareToCommit fileExtensions))
  else
    Except.ok (strIntercalate "\n" (collectDiffs contextLines filteredChanges))

/-- Loop state of `formatDiffAsMarkdown` (src/diffService.ts, lines 67-127):
the accumulated output lines, the current file name, the pending lines of the
current file, and the header flag. -/
structure FmtState where
  result : List String
  currentFile : String
  fileContent : List String
  inFileHeader : Bool
deriving Repr

/-- Embedding of the `processFileContent` helper of `formatDiffAsMarkdown`
(src/diffService.ts, lines 75-84): when a current file with pending content
exists, append its heading and a fenced diff block to the output lines. -/
def processFileContent (result : List String) (currentFile : String)
    (fileContent : List String) : List String :=
  if currentFile ≠ "" ∧ fileContent ≠ [] then
    result ++ ["## " ++ currentFile, "", "```diff"] ++ fileContent ++ ["```", ""]
  else result

/-- Rightmost split of a character list around an occurrence of `sep` that
leaves a non-empty part on each side.  The occurrence at position 0 is never
taken (the left part must be non-empty), and a candidate whose right part is
empty is abandoned in favour of occurrences further left — the backtracking
of a greedy `(.+)sep(.+)` pattern. -/
def lastSplitNonempty (sep : List Char) : List Char → Option (List Char × List Char)
  | [] => none
  | c :: cs =>
    match lastSplitNonempty sep cs with
    | some (pre, post) => some (c :: pre, post)
    | none =>
      if sep.isPrefixOf cs ∧ cs.drop sep.length ≠ [] then
        some ([c], cs.drop sep.length)
      else none

/-- Leftmost-start match of the unanchored pattern
`diff --git a\/(.+) b\/(.+)` against a line: scan left to right for a
position where `diff --git a/` begins and the remainder splits as
`<group1> b/<group2>` with both groups non-empty (group1 as long as
possible, the greedy choice); when the split fails at one start position the
scan continues at the next, as regex matching does.  Returns group2. -/
def matchDiffGitGo : List Char → Option (List Char)
  | [] => none
  | c :: cs =>
    if "diff --git a/".data.isPrefixOf (c :: cs) then
      match lastSplitNonempty " b/".data ((c :: cs).drop "diff --git a/".data.length) with
      | some (_, post) => some post
      | none => matchDiffGitGo cs
    else matchDiffGitGo cs

/-- Embedding of the path extraction from a `diff --git ` line
(src/diffService.ts, lines 93-98):
`line.match(/diff --git a\/(.+) b\/(.+)/)` matches at the leftmost possible
start position with a greedy first group; the extracted file name is the
second group, and `Unknown file` when the regex matches nowhere in the
line. -/
def parseDiffGitLine (line : String) : String :=
  match matchDiffGitGo line.data with
  | some post => (⟨post⟩ : String)
  | none => "Unknown file"

/-- One iteration of the line loop of `formatDiffAsMarkdown`
(src/diffService.ts, lines 86-116): a `diff --git ` line flushes the pending
file and starts a new one; `index `, `--- ` and `+++ ` lines are skipped;
any other line is collected when a current file exists and dropped
otherwise. -/
def formatStep (st : FmtState) (line : String) : FmtState :=
  if strStartsWith line "diff --git " then
    { result := processFileContent st.result st.currentFile st.fileContent,
      currentFile := parseDiffGitLine line,
      fileContent := [],
      inFileHeader := true }
  else if strStartsWith line "index " || strStartsWith line "--- " ||
      strStartsWith line "+++ " then st
  else if st.currentFile ≠ "" then
    { st with inFileHeader := false, fileContent := st.fileContent ++ [line] }
  else st

/-- Embedding of `formatDiffAsMarkdown` (src/diffService.ts, lines 67-127):
group the input's lines into per-file fenced blocks keyed by `diff --git `
headers; when no file was recognized, return the whole input wrapped in a
single fenced diff block. -/
def formatDiffAsMarkdown (diff : String) : String :=
  let lines := jsSplitNl diff
  let st := lines.foldl formatStep ⟨[], "", [], false⟩
  let result := processFileContent st.result st.currentFile st.fileContent
  if result = [] then "```diff\n" ++ diff ++ "\n```"
  else strIntercalate "\n" result

/-! Supporting lemmas. -/

theorem strExt {s t : String} (h : s.data = t.data) : s = t := by
  cases s; cases t; simp_all

theorem jsTrimList_cons_ne_nil {c : Char} (t : List Char)
    (hc : isJsWhitespace c = false) : jsTrimList (c :: t) ≠ [] := by
  unfold jsTrimList
  rw [List.dropWhile_cons, hc]
  simp only [Bool.false_eq_true, if_false]
  intro h
  rw [List.reverse_eq_nil_iff, List.dropWhile_eq_nil_iff] at h
  have hmem : c ∈ (c :: t).reverse := by simp
  have := h c hmem
  rw [hc] at this
  exact Bool.false_ne_true this

theorem diffGitLiteral_data : "diff --git a/".data = 'd' :: "iff --git a/".data := rfl

theorem jsTrim_header_append_ne (op np X : String) :
    jsTrim (unifiedDiffHeader op np ++ X) ≠ "" := by
  intro he
  have hd : jsTrimList ((unifiedDiffHeader op np ++ X).data) = [] := by
    have h2 := congrArg String.data he
    simpa [jsTrim] using h2
  simp only [unifiedDiffHeader, String.data_append, diffGitLiteral_data,
    List.cons_append] at hd
  exact jsTrimList_cons_ne_nil _ (by decide) hd

theorem generateUnifiedDiff_unfold (op np oc nc : String) (k : Nat) :
    generateUnifiedDiff op np oc nc k =
      unifiedDiffHeader op np ++
        concatStrings ((structuredPatch oc nc k).map renderHunk) := by
  unfold generateUnifiedDiff
  rw [if_pos (jsTrim_header_append_ne op np _)]

/-- A string whose final character is a newline. -/
def endsNl (s : String) : Prop := s.data.getLast? = some '\n'

theorem endsNl_append {s t : String} (h : endsNl t) : endsNl (s ++ t) := by
  unfold endsNl at *
  rw [String.data_append, List.getLast?_append_of_ne_nil]
  · exact h
  · intro hnil
    rw [hnil] at h
    exact Option.noConfusion h

theorem endsNl_newline_end (s : String) : endsNl (s ++ "\n") := by
  unfold endsNl
  rw [String.data_append, List.getLast?_append_of_ne_nil]
  · rfl
  · exact fun h => List.noConfusion h

theorem endsNl_concat {l : List String} (h : ∀ s ∈ l, endsNl s) (hne : l ≠ []) :
    endsNl (concatStrings l) := by
  induction l with
  | nil => exact absurd rfl hne
  | cons s rest ih =>
    cases rest with
    | nil =>
      show endsNl (s ++ concatStrings [])
      rw [show concatStrings [] = "" from rfl, String.append_empty]
      exact h s (by simp)
    | cons t rest2 =>
      exact endsNl_append (ih (fun x hx => h x (List.mem_cons_of_mem _ hx)) (by simp))

theorem endsNl_hunkHeaderLine (h : Hunk) : endsNl (hunkHeaderLine h) := by
  unfold hunkHeaderLine
  repeat apply endsNl_append
  exact rfl

theorem endsNl_renderHunk (h : Hunk) : endsNl (renderHunk h) := by
  unfold renderHunk
  cases hl : h.lines with
  | nil =>
    show endsNl (hunkHeaderLine h ++ concatStrings [])
    rw [show concatStrings [] = "" from rfl, String.append_empty]
    exact endsNl_hunkHeaderLine h
  | cons p rest =>
    apply endsNl_append
    apply endsNl_concat
    · intro s hs
      rw [List.mem_map] at hs
      obtain ⟨x, _, rfl⟩ := hs
      exact endsNl_newline_end _
    · simp

theorem endsNl_unifiedDiffHeader (op np : String) : endsNl (unifiedDiffHeader op np) := by
  unfold unifiedDiffHeader
  repeat apply endsNl_append
  exact rfl

theorem generateUnifiedDiff_endsNl (op np oc nc : String) (k : Nat) :
    endsNl (generateUnifiedDiff op np oc nc k) := by
  rw [generateUnifiedDiff_unfold]
  cases hp : structuredPatch oc nc k with
  | nil =>
    show endsNl (unifiedDiffHeader op np ++ concatStrings [])
    rw [show concatStrings [] = "" from rfl, String.append_empty]
    exact endsNl_unifiedDiffHeader op np
  | cons h t =>
    apply endsNl_append
    apply endsNl_concat
    · intro s hs
      rw [List.mem_map] at hs
      obtain ⟨x, _, rfl⟩ := hs
      exact endsNl_renderHunk x
    · simp

theorem foldl_collectStep (ctx : Nat) (l : List ChangeModel) :
    ∀ acc : List String,
      l.foldl (collectStep ctx) acc =
        acc ++ (l.map (perFileDiff ctx)).filter (fun d => d ≠ "") := by
  induction l with
  | nil => intro acc; simp
  | cons c rest ih =>
    intro acc
    rw [List.foldl_cons]
    by_cases hd : perFileDiff ctx c = ""
    · have hstep : collectStep ctx acc c = acc := by
        unfold collectStep
        exact if_neg (not_not_intro hd)
      rw [hstep, ih, List.map_cons, List.filter_cons]
      simp [hd]
    · have hstep : collectStep ctx acc c = acc ++ [perFileDiff ctx c] := by
        unfold collectStep
        exact if_pos hd
      rw [hstep, ih, List.map_cons, List.filter_cons]
      simp [hd]

theorem collectDiffs_eq (ctx : Nat) (l : List ChangeModel) :
    collectDiffs ctx l = (l.map (perFileDiff ctx)).filter (fun d => d ≠ "") := by
  unfold collectDiffs
  rw [foldl_collectStep]
  simp

theorem foldl_append_flatMap (f : α → List β) (l : List α) :
    ∀ acc : List β, l.foldl (fun r a => r ++ f a) acc = acc ++ l.flatMap f := by
  induction l with
  | nil => intro acc; simp
  | cons a rest ih =>
    intro acc
    rw [List.foldl_cons, ih]
    simp

theorem jsTrim_empty_all_ws {s : String} (h : jsTrim s = "") :
    ∀ c ∈ s.data, isJsWhitespace c = true := by
  have hl : jsTrimList s.data = [] := congrArg String.data h
  unfold jsTrimList at hl
  rw [List.reverse_eq_nil_iff, List.dropWhile_eq_nil_iff] at hl
  intro c hc
  rw [← List.takeWhile_append_dropWhile (p := isJsWhitespace) (l := s.data),
    List.mem_append] at hc
  cases hc with
  | inl h1 => exact List.mem_takeWhile_imp h1
  | inr h2 => exact hl c (List.mem_reverse.mpr h2)

theorem splitSepsGo_all_sep :
    ∀ l : List Char, (∀ c ∈ l, isJsWhitespace c = true) →
      ∀ b : Bool, ∀ f ∈ splitSepsGo l b [], f = [] := by
  intro l
  induction l with
  | nil =>
    intro _ b f hf
    simp only [splitSepsGo, List.reverse_nil, List.mem_singleton] at hf
    exact hf
  | cons c cs ih =>
    intro h b f hf
    have hc := h c (by simp)
    have hrest : ∀ x ∈ cs, isJsWhitespace x = true :=
      fun x hx => h x (List.mem_cons_of_mem _ hx)
    simp only [splitSepsGo, hc, Bool.or_true, if_true] at hf
    cases b with
    | true =>
      simp only [if_true] at hf
      exact ih hrest true f hf
    | false =>
      simp only [Bool.false_eq_true, if_false, List.reverse_nil,
        List.mem_cons] at hf
      cases hf with
      | inl h0 => exact h0
      | inr h1 => exact ih hrest true f h1

theorem extensionTokens_empty_of_blank {s : String} (h : jsTrim s = "") :
    ((jsSplitSeps s).map jsTrim).filter (fun t => t ≠ "") = [] := by
  rw [List.filter_eq_nil_iff]
  intro a ha
  rw [List.mem_map] at ha
  obtain ⟨t, ht, rfl⟩ := ha
  unfold jsSplitSeps at ht
  rw [List.mem_map] at ht
  obtain ⟨f, hf, rfl⟩ := ht
  have hfe : f = [] := splitSepsGo_all_sep s.data (jsTrim_empty_all_ws h) false f hf
  subst hfe
  simp
  rfl

theorem expandExtension_eq (t : String) :
    expandExtension t =
      if strContains t "**" || strContains t "/" then [t]
      else
        [if strStartsWith t "*" then t
         else if strStartsWith t "." then "*" ++ t else "*." ++ t,
         "**/" ++
           (if strStartsWith t "*" then t
            else if strStartsWith t "." then "*" ++ t else "*." ++ t)] := by
  unfold expandExtension
  split <;> rfl

theorem formatStep_init (line : String)
    (h : strStartsWith line "diff --git " = false) :
    formatStep ⟨[], "", [], false⟩ line = ⟨[], "", [], false⟩ := by
  unfold formatStep
  rw [h]
  simp only [Bool.false_eq_true, if_false]
  split
  · rfl
  · rw [if_neg (by simp)]

theorem foldl_formatStep_init (lines : List String)
    (h : ∀ l ∈ lines, strStartsWith l "diff --git " = false) :
    lines.foldl formatStep ⟨[], "", [], false⟩ = ⟨[], "", [], false⟩ := by
  induction lines with
  | nil => rfl
  | cons l ls ih =>
    rw [List.foldl_cons, formatStep_init l (h l (by simp))]
    exact ih (fun x hx => h x (List.mem_cons_of_mem _ hx))

/-! Claim theorems. -/

/-- C1 (counterexample): on the added-file input (`oldContent = ""`,
`newContent = "a\nb\n"`) the per-file unified diff contains no
`new file mode` line, no `--- /dev/null` line, and no hunk header
`@@ -0,0 +1,2 @@`, so the claim is false as stated. -/
theorem c1_counterexample :
    strContains (generateUnifiedDiff "file.txt" "file.txt" "" "a\nb\n" 50)
      "new file mode" = false ∧
    strContains (generateUnifiedDiff "file.txt" "file.txt" "" "a\nb\n" 50)
      "--- /dev/null" = false ∧
    strContains (generateUnifiedDiff "file.txt" "file.txt" "" "a\nb\n" 50)
      "@@ -0,0 +1,2 @@" = false := by decide

/-- C1 (amended): for an added file (`oldContent = ""`,
`newContent = "a\nb\n"`) the per-file unified diff is the constant header
block (`diff --git`, placeholder `index` line, `--- a/<path>`,
`+++ b/<path>` — no new-file marker and no `/dev/null` side) followed by
exactly one hunk with header `@@ -1,0 +1,2 @@` whose lines are `+a` and
`+b`. -/
theorem c1_added_file_output :
    generateUnifiedDiff "file.txt" "file.txt" "" "a\nb\n" 50 =
      "diff --git a/file.txt b/file.txt\nindex 0000000..0000000 100644\n--- a/file.txt\n+++ b/file.txt\n@@ -1,0 +1,2 @@\n+a\n+b\n" := by
  decide

/-- C2 (code bug): for identical old and new content the hunk list is empty,
yet `generateUnifiedDiff` returns the four header lines rather than the
empty string — the `result.trim() ? result : ''` guard can never yield `''`
because the unconditionally emitted header is non-blank — and the non-empty
header block is therefore included in the concatenated output of
`generateNativeGitDiff` instead of being excluded. -/
theorem c2_identical_content_nonempty :
    structuredPatch "a\n" "a\n" 50 = [] ∧
    generateUnifiedDiff "f" "f" "a\n" "a\n" 50 =
      "diff --git a/f b/f\nindex 0000000..0000000 100644\n--- a/f\n+++ b/f\n" ∧
    generateUnifiedDiff "f" "f" "a\n" "a\n" 50 ≠ "" ∧
    generateNativeGitDiff [⟨"f", Status.MODIFIED, "a\n", "a\n"⟩] none 50 true "" =
      Except.ok "diff --git a/f b/f\nindex 0000000..0000000 100644\n--- a/f\n+++ b/f\n" := by
  refine ⟨by decide, by decide, by decide, ?_⟩
  rfl

/-- C3: for a modified file the output is the header block (whose last two
lines are `--- a/<oldPath>` and `+++ b/<newPath>`) followed by every hunk,
each preceded by its `@@ -<oldStart>,<oldCount> +<newStart>,<newCount> @@`
header, and every rendered hunk line carries a one-character prefix (space,
`+` or `-`); concretely, for old `"x\ny\nz\n"`, new `"x\nY\nz\n"` and one
context line the output has exactly one hunk `@@ -1,3 +1,3 @@` with lines
` x`, `-y`, `+Y`, ` z`. -/
theorem c3_modified_file_format :
    generateUnifiedDiff "f" "f" "x\ny\nz\n" "x\nY\nz\n" 1 =
      "diff --git a/f b/f\nindex 0000000..0000000 100644\n--- a/f\n+++ b/f\n@@ -1,3 +1,3 @@\n x\n-y\n+Y\n z\n" ∧
    (∀ oldPath newPath oldContent newContent : String, ∀ contextLines : Nat,
      generateUnifiedDiff oldPath newPath oldContent newContent contextLines =
        unifiedDiffHeader oldPath newPath ++
          concatStrings ((structuredPatch oldContent newContent contextLines).map renderHunk)) ∧
    (∀ p : PrefixedLine,
      (renderPrefixedLine p).data.head? = some ' ' ∨
      (renderPrefixedLine p).data.head? = some '+' ∨
      (renderPrefixedLine p).data.head? = some '-') := by
  refine ⟨by decide, generateUnifiedDiff_unfold, ?_⟩
  intro p
  cases p with
  | mk role text =>
    cases role with
    | context =>
      left
      rw [show renderPrefixedLine ⟨LineRole.context, text⟩ = " " ++ text from rfl,
        String.data_append]
      rfl
    | added =>
      right; left
      rw [show renderPrefixedLine ⟨LineRole.added, text⟩ = "+" ++ text from rfl,
        String.data_append]
      rfl
    | removed =>
      right; right
      rw [show renderPrefixedLine ⟨LineRole.removed, text⟩ = "-" ++ text from rfl,
        String.data_append]
      rfl

/-- C4 (counterexample): on the deleted-file input (`oldContent = "a\nb\n"`,
`newContent = ""`) the per-file unified diff contains no
`deleted file mode` line, no `+++ /dev/null` line, and no hunk header
`@@ -1,2 +0,0 @@`, so the claim is false as stated. -/
theorem c4_counterexample :
    strContains (generateUnifiedDiff "file.txt" "file.txt" "a\nb\n" "" 50)
      "deleted file mode" = false ∧
    strContains (generateUnifiedDiff "file.txt" "file.txt" "a\nb\n" "" 50)
      "+++ /dev/null" = false ∧
    strContains (generateUnifiedDiff "file.txt" "file.txt" "a\nb\n" "" 50)
      "@@ -1,2 +0,0 @@" = false := by decide

/-- C4 (amended): for a deleted file (`oldContent = "a\nb\n"`,
`newContent = ""`) the per-file unified diff is the constant header block
(no deletion marker and no `/dev/null` side) followed by one hunk of pure
removals with header `@@ -1,2 +1,0 @@` whose lines are `-a` and `-b`. -/
theorem c4_deleted_file_output :
    generateUnifiedDiff "file.txt" "file.txt" "a\nb\n" "" 50 =
      "diff --git a/file.txt b/file.txt\nindex 0000000..0000000 100644\n--- a/file.txt\n+++ b/file.txt\n@@ -1,2 +1,0 @@\n-a\n-b\n" := by
  decide

/-- C5: whenever no changed file survives the extension filter and the
exclude-deletes rule, `generateNativeGitDiff` fails with an error (not an
empty success) whose message contains the text `No changes found`. -/
theorem c5_no_changes_error (changes : List ChangeModel) (cmp : Option String)
    (ctx : Nat) (excl : Bool) (exts : String)
    (h : filterDeletes excl (filterByExtensions exts changes) = []) :
    ∃ msg, generateNativeGitDiff changes cmp ctx excl exts = Except.error msg ∧
      ∃ u v, msg = u ++ ("No changes found" ++ v) := by
  refine ⟨wrapFailure (noChangesMessage cmp exts), ?_,
    "Failed to generate git diff: Error: ", compareInfo cmp ++ filterInfo exts, rfl⟩
  unfold generateNativeGitDiff
  rw [h]
  rfl

/-- C5 (witness): a deleted-only change list with `excludeDeletes = true`
leaves nothing after filtering, and the call fails with a message containing
`No changes found`. -/
theorem c5_no_changes_error_witness :
    filterDeletes true (filterByExtensions ""
      [⟨"f.txt", Status.DELETED, "a\n", ""⟩]) = [] ∧
    ∃ msg, generateNativeGitDiff [⟨"f.txt", Status.DELETED, "a\n", ""⟩]
        none 50 true "" = Except.error msg ∧
      ∃ u v, msg = u ++ ("No changes found" ++ v) :=
  ⟨by decide,
    c5_no_changes_error [⟨"f.txt", Status.DELETED, "a\n", ""⟩] none 50 true "" (by decide)⟩

/-- C6: with `excludeDeletes = true`, files whose status is `DELETED` or
`INDEX_DELETED` contribute nothing to the result of
`generateNativeGitDiff` — removing them from the change list beforehand
leaves the result unchanged. -/
theorem c6_exclude_deletes (changes : List ChangeModel) (cmp : Option String)
    (ctx : Nat) (exts : String) :
    generateNativeGitDiff changes cmp ctx true exts =
      generateNativeGitDiff (changes.filter (fun c => !isDeletedStatus c.status))
        cmp ctx true exts := by
  have key : filterDeletes true (filterByExtensions exts
        (changes.filter (fun c => !isDeletedStatus c.status))) =
      filterDeletes true (filterByExtensions exts changes) := by
    unfold filterDeletes filterByExtensions
    by_cases hx : exts = ""
    · simp only [hx, ne_eq, not_true_eq_false, if_false, if_true]
      rw [List.filter_filter]
      apply List.filter_congr
      intro a _
      rw [Bool.and_self]
    · simp only [ne_eq, hx, not_false_eq_true, if_true]
      rw [List.filter_filter, List.filter_filter, List.filter_filter]
      apply List.filter_congr
      intro a _
      cases isDeletedStatus a.status <;>
        cases matchesPathspecs (parseFileExtensionsFilter exts) a.path <;> rfl
  unfold generateNativeGitDiff
  rw [key]

/-- C7 (counterexample): for the simple token `*cs` (leading `*`, no dot)
the code keeps the token as-is, emitting `*cs` and `**/*cs`, not the
claimed normalized patterns `*.cs` and `**/*.cs`. -/
theorem c7_counterexample :
    parseFileExtensionsFilter "*cs" = ["*cs", "**/*cs"] ∧
    "*.cs" ∉ parseFileExtensionsFilter "*cs" ∧
    "**/*.cs" ∉ parseFileExtensionsFilter "*cs" := by decide

/-- C7 (amended): for every input string, `parseFileExtensionsFilter`
splits the input on commas, semicolons and whitespace (blank tokens
dropped) and each token contributes, in order, exactly its expansion: a
token containing `**` or `/` passes through unchanged as a single pattern;
for any other token the root pattern is the token itself when it already
starts with `*`, `*` prepended to the token when it starts with `.`, and
`*.` prepended otherwise, and exactly the root pattern and `**/` plus the
root pattern are emitted; in particular `"cs"` yields `*.cs` and
`**/*.cs`, and `"**/*.specific"` passes through unchanged. -/
theorem c7_pattern_expansion :
    (∀ fileExtensions : String,
      parseFileExtensionsFilter fileExtensions =
        (((jsSplitSeps fileExtensions).map jsTrim).filter (fun t => t ≠ "")).flatMap
          (fun t =>
            if strContains t "**" || strContains t "/" then [t]
            else
              [if strStartsWith t "*" then t
               else if strStartsWith t "." then "*" ++ t else "*." ++ t,
               "**/" ++
                 (if strStartsWith t "*" then t
                  else if strStartsWith t "." then "*" ++ t else "*." ++ t)])) ∧
    parseFileExtensionsFilter "cs" = ["*.cs", "**/*.cs"] ∧
    parseFileExtensionsFilter "**/*.specific" = ["**/*.specific"] ∧
    parseFileExtensionsFilter ".cs" = ["*.cs", "**/*.cs"] ∧
    parseFileExtensionsFilter "*.cs" = ["*.cs", "**/*.cs"] ∧
    parseFileExtensionsFilter "cs md,txt;py" =
      ["*.cs", "**/*.cs", "*.md", "**/*.md", "*.txt", "**/*.txt", "*.py", "**/*.py"] ∧
    parseFileExtensionsFilter "src/module" = ["src/module"] := by
  refine ⟨?_, by decide, by decide, by decide, by decide, by decide, by decide⟩
  intro s
  have hfun :
      expandExtension =
        (fun t =>
          if strContains t "**" || strContains t "/" then [t]
          else
            [if strStartsWith t "*" then t
             else if strStartsWith t "." then "*" ++ t else "*." ++ t,
             "**/" ++
               (if strStartsWith t "*" then t
                else if strStartsWith t "." then "*" ++ t else "*." ++ t)]) :=
    funext expandExtension_eq
  unfold parseFileExtensionsFilter
  by_cases ht : jsTrim s = ""
  · rw [if_pos (by simp [ht]), extensionTokens_empty_of_blank ht]
    simp
  · have hs : s ≠ "" := fun hs0 => ht (by rw [hs0]; rfl)
    rw [if_neg (by simp [hs, ht]), foldl_append_flatMap, hfun]
    simp

/-- C8 (counterexample): the pattern set containing only the root-level
pattern `*.cs` matches the nested path `dir/a.cs` (a path with a directory
component), contradicting the claim that root-level patterns match only
top-level files. -/
theorem c8_counterexample :
    matchesPathspecs ["*.cs"] "dir/a.cs" = true ∧
    strContains "dir/a.cs" "/" = true := by decide

/-- C8 (amended): the matching step returns true exactly when some
pattern's literal extension portion is a suffix of the candidate path — for
root-level and recursive patterns alike, with no depth restriction — and an
empty filter string leaves the change list unfiltered; recursive patterns
produced for a simple extension match at any depth. -/
theorem c8_suffix_matching :
    (∀ pathspecs : List String, ∀ rel : String,
      matchesPathspecs pathspecs rel = true ↔
        ∃ p ∈ pathspecs, strEndsWith rel (literalExtensionOf p) = true) ∧
    (∀ changes : List ChangeModel, filterByExtensions "" changes = changes) ∧
    matchesPathspecs (parseFileExtensionsFilter "cs") "dir/a.cs" = true := by
  refine ⟨?_, ?_, by decide⟩
  · intro pats rel
    have hp : ∀ p, patternMatchesPath rel p = strEndsWith rel (literalExtensionOf p) := by
      intro p
      unfold patternMatchesPath literalExtensionOf
      split_ifs <;> rfl
    unfold matchesPathspecs
    rw [List.any_eq_true]
    constructor
    · rintro ⟨p, hmem, hmatch⟩
      exact ⟨p, hmem, by rw [← hp]; exact hmatch⟩
    · rintro ⟨p, hmem, hend⟩
      exact ⟨p, hmem, by rw [hp]; exact hend⟩
  · intro changes
    unfold filterByExtensions
    rw [if_neg (by simp)]

/-- C9: on success, the output of `generateNativeGitDiff` is the non-empty
per-file diffs of the filtered changes, in the original descriptor order,
joined by a single `"\n"`; since every per-file diff ends with a newline,
consecutive files are separated by exactly one blank line. -/
theorem c9_output_concatenation (changes : List ChangeModel) (cmp : Option String)
    (ctx : Nat) (excl : Bool) (exts : String)
    (h : filterDeletes excl (filterByExtensions exts changes) ≠ []) :
    generateNativeGitDiff changes cmp ctx excl exts =
      Except.ok (strIntercalate "\n"
        (((filterDeletes excl (filterByExtensions exts changes)).map
          (perFileDiff ctx)).filter (fun d => d ≠ ""))) ∧
    ∀ d ∈ ((filterDeletes excl (filterByExtensions exts changes)).map
        (perFileDiff ctx)).filter (fun d => d ≠ ""),
      d ≠ "" ∧ d.data.getLast? = some '\n' := by
  constructor
  · unfold generateNativeGitDiff
    rw [if_neg (fun h0 => h (List.length_eq_zero.mp h0)), collectDiffs_eq]
  · intro d hd
    rw [List.mem_filter] at hd
    obtain ⟨hdm, hdne⟩ := hd
    refine ⟨of_decide_eq_true hdne, ?_⟩
    rw [List.mem_map] at hdm
    obtain ⟨c, _, rfl⟩ := hdm
    exact generateUnifiedDiff_endsNl c.path c.path c.oldContent c.newContent ctx

/-- C9 (witness): a two-file change list survives filtering, and the output
is the newline-joined list of the two per-file diffs, each of which is
non-empty and ends with a newline. -/
theorem c9_output_concatenation_witness :
    filterDeletes true (filterByExtensions ""
      [⟨"a.cs", Status.MODIFIED, "x\ny\nz\n", "x\nY\nz\n"⟩,
       ⟨"b.cs", Status.MODIFIED, "p\n", "q\n"⟩]) ≠ [] ∧
    (generateNativeGitDiff
        [⟨"a.cs", Status.MODIFIED, "x\ny\nz\n", "x\nY\nz\n"⟩,
         ⟨"b.cs", Status.MODIFIED, "p\n", "q\n"⟩] none 1 true "" =
      Except.ok (strIntercalate "\n"
        (((filterDeletes true (filterByExtensions ""
          [⟨"a.cs", Status.MODIFIED, "x\ny\nz\n", "x\nY\nz\n"⟩,
           ⟨"b.cs", Status.MODIFIED, "p\n", "q\n"⟩])).map
          (perFileDiff 1)).filter (fun d => d ≠ ""))) ∧
    ∀ d ∈ ((filterDeletes true (filterByExtensions ""
        [⟨"a.cs", Status.MODIFIED, "x\ny\nz\n", "x\nY\nz\n"⟩,
         ⟨"b.cs", Status.MODIFIED, "p\n", "q\n"⟩])).map
        (perFileDiff 1)).filter (fun d => d ≠ ""),
      d ≠ "" ∧ d.data.getLast? = some '\n') :=
  ⟨by decide,
    c9_output_concatenation
      [⟨"a.cs", Status.MODIFIED, "x\ny\nz\n", "x\nY\nz\n"⟩,
       ⟨"b.cs", Status.MODIFIED, "p\n", "q\n"⟩] none 1 true "" (by decide)⟩

/-- C10: when no line of the input starts with `diff --git `,
`formatDiffAsMarkdown` returns the entire input wrapped in a single fenced
diff code block, and in particular never returns the empty string. -/
theorem c10_markdown_fallback (diff : String)
    (h : (jsSplitNl diff).all (fun l => !(strStartsWith l "diff --git ")) = true) :
    formatDiffAsMarkdown diff = "```diff\n" ++ diff ++ "\n```" ∧
      formatDiffAsMarkdown diff ≠ "" := by
  have h2 : ∀ l ∈ jsSplitNl diff, strStartsWith l "diff --git " = false := by
    intro l hl
    have h3 := List.all_eq_true.mp h l hl
    simpa using h3
  have heq : formatDiffAsMarkdown diff = "```diff\n" ++ diff ++ "\n```" := by
    simp only [formatDiffAsMarkdown]
    rw [foldl_formatStep_init (jsSplitNl diff) h2]
    rfl
  refine ⟨heq, ?_⟩
  rw [heq]
  intro habs
  have hd := congrArg String.data habs
  rw [String.data_append, String.data_append,
    show "```diff\n".data = '`' :: "``diff\n".data from rfl,
    List.cons_append, List.cons_append,
    show ("" : String).data = [] from rfl] at hd
  exact List.noConfusion hd

/-- C10 (witness): an input with no `diff --git ` line is returned wrapped
in a fenced diff block. -/
theorem c10_markdown_fallback_witness :
    ((jsSplitNl "hello\nworld").all
      (fun l => !(strStartsWith l "diff --git ")) = true) ∧
    (formatDiffAsMarkdown "hello\nworld" = "```diff\n" ++ "hello\nworld" ++ "\n```" ∧
      formatDiffAsMarkdown "hello\nworld" ≠ "") :=
  ⟨by decide, c10_markdown_fallback "hello\nworld" (by decide)⟩

end DiffLens
